import Mathlib

/-!
Verification development for the growxbot verification pipeline.

The embedding follows `src/ocr.js` (text normalizer and layout classifier,
the later variant with the `relX < 0.6` alignment constraints and
strong-marker weighting) and `src/handlers.js` (session management and the
screenshot decision step).  Strings are modelled as `List Char`, JS numbers
occurring in coordinate arithmetic as exact fractions with kernel-computable
operations, and the per-user session map as an `Option Session` per user.
-/

namespace GrowxBot

/-! ## Exact fractions

JS coordinate arithmetic (`((y0 + y1) / 2) / height` and comparisons against
decimal literals) is modelled with an exact fraction type whose operations
are structural, so that concrete runs of the classifier reduce inside the
kernel.  Comparisons multiply out by both denominators (squared, to keep the
orientation independent of denominator signs). -/

structure Frac where
  num : Int
  den : Int
deriving DecidableEq, Repr

instance : Add Frac := ⟨fun a b => ⟨a.num * b.den + b.num * a.den, a.den * b.den⟩⟩

instance : Div Frac := ⟨fun a b => ⟨a.num * b.den, a.den * b.num⟩⟩

instance : LE Frac := ⟨fun a b => a.num * b.den * (a.den * b.den) ≤ b.num * a.den * (a.den * b.den)⟩

instance : LT Frac := ⟨fun a b => a.num * b.den * (a.den * b.den) < b.num * a.den * (a.den * b.den)⟩

instance (a b : Frac) : Decidable (a ≤ b) :=
  inferInstanceAs (Decidable (a.num * b.den * (a.den * b.den) ≤ b.num * a.den * (a.den * b.den)))

instance (a b : Frac) : Decidable (a < b) :=
  inferInstanceAs (Decidable (a.num * b.den * (a.den * b.den) < b.num * a.den * (a.den * b.den)))

instance (n : Nat) : OfNat Frac n := ⟨⟨Int.ofNat n, 1⟩⟩

instance : OfScientific Frac :=
  ⟨fun m b e =>
    if b then ⟨Int.ofNat m, Int.ofNat (10 ^ e)⟩ else ⟨Int.ofNat (m * 10 ^ e), 1⟩⟩

theorem Frac.not_lt {a b : Frac} : ¬ a < b ↔ b ≤ a := by
  show ¬ (a.num * b.den * (a.den * b.den) < b.num * a.den * (a.den * b.den)) ↔
    b.num * a.den * (b.den * a.den) ≤ a.num * b.den * (b.den * a.den)
  rw [Int.not_lt, Int.mul_comm b.den a.den]

/-! ## Text normalizer (`normalizeText` in `src/ocr.js`)

`text.replace(/0/g,"o").replace(/1/g,"l").replace(/\|/g,"l").replace(/@/g,"")
.toLowerCase().trim()`, with the JS falsy guard returning the empty string.
`String.prototype.toLowerCase` is modelled by ASCII case folding
(`Char.toLower`) and `trim` by dropping whitespace at both ends. -/

def isWsChar (c : Char) : Bool :=
  c == ' ' || c == '\t' || c == '\n' || c == '\r' || c == '\x0b' || c == '\x0c'

def trimWs (s : List Char) : List Char :=
  ((s.dropWhile isWsChar).reverse.dropWhile isWsChar).reverse

def subst0 (c : Char) : Char := if c = '0' then 'o' else c

def subst1 (c : Char) : Char := if c = '1' then 'l' else c

def substPipe (c : Char) : Char := if c = '|' then 'l' else c

def normalizeText (text : List Char) : List Char :=
  if text = [] then []
  else
    trimWs (((((text.map subst0).map subst1).map substPipe).filter
      (fun c => !(c == '@'))).map Char.toLower)

/-! ### Character-level facts used for idempotence of the normalizer -/

theorem toNat_ofNat_of_valid (n : Nat) (h : n.isValidChar) : (Char.ofNat n).toNat = n := by
  simp only [Char.ofNat, dif_pos h, Char.ofNatAux, Char.toNat, UInt32.toNat]
  simp

theorem toNat_toLower (c : Char) :
    (Char.toLower c).toNat = if 65 ≤ c.toNat ∧ c.toNat ≤ 90 then c.toNat + 32 else c.toNat := by
  unfold Char.toLower
  split
  · next h =>
    rw [if_pos (by omega)]
    exact toNat_ofNat_of_valid _ (Or.inl (by omega))
  · next h =>
    rw [if_neg (by omega)]

theorem char_eq_of_toNat_eq {c d : Char} (h : c.toNat = d.toNat) : c = d := by
  have h2 := congrArg Char.ofNat h
  simpa using h2

theorem toLower_fixed (c : Char) (h : ¬ (65 ≤ c.toNat ∧ c.toNat ≤ 90)) : Char.toLower c = c := by
  unfold Char.toLower
  rw [if_neg (by omega)]

theorem toLower_toLower (c : Char) : Char.toLower (Char.toLower c) = Char.toLower c := by
  by_cases h : 65 ≤ c.toNat ∧ c.toNat ≤ 90
  · apply toLower_fixed
    rw [toNat_toLower, if_pos h]
    omega
  · rw [toLower_fixed c h, toLower_fixed c h]

theorem toLower_ne (c d : Char) (hd : ¬ (97 ≤ d.toNat ∧ d.toNat ≤ 122)) (hcd : c ≠ d) :
    Char.toLower c ≠ d := by
  intro h
  have ht := congrArg Char.toNat h
  rw [toNat_toLower] at ht
  by_cases hb : 65 ≤ c.toNat ∧ c.toNat ≤ 90
  · rw [if_pos hb] at ht
    omega
  · rw [if_neg hb] at ht
    exact hcd (char_eq_of_toNat_eq ht)

theorem subst0_ne_zero (c : Char) : subst0 c ≠ '0' := by
  unfold subst0; split
  · decide
  · assumption

theorem subst1_ne_one (c : Char) : subst1 c ≠ '1' := by
  unfold subst1; split
  · decide
  · assumption

theorem substPipe_ne_pipe (c : Char) : substPipe c ≠ '|' := by
  unfold substPipe; split
  · decide
  · assumption

theorem subst1_ne_zero (c : Char) (h : c ≠ '0') : subst1 c ≠ '0' := by
  unfold subst1; split
  · decide
  · exact h

theorem substPipe_ne_zero (c : Char) (h : c ≠ '0') : substPipe c ≠ '0' := by
  unfold substPipe; split
  · decide
  · exact h

theorem substPipe_ne_one (c : Char) (h : c ≠ '1') : substPipe c ≠ '1' := by
  unfold substPipe; split
  · decide
  · exact h

/-- A character is stable for the normalizer if every stage of the pipeline
leaves it unchanged. -/
def stableChar (c : Char) : Prop :=
  subst0 c = c ∧ subst1 c = c ∧ substPipe c = c ∧ c ≠ '@' ∧ Char.toLower c = c

theorem stableChar_of_stage (d : Char)
    (h0 : d ≠ '0') (h1 : d ≠ '1') (hp : d ≠ '|') (ha : d ≠ '@') :
    stableChar (Char.toLower d) := by
  refine ⟨?_, ?_, ?_, ?_, toLower_toLower d⟩
  · unfold subst0
    rw [if_neg (toLower_ne d '0' (by decide) h0)]
  · unfold subst1
    rw [if_neg (toLower_ne d '1' (by decide) h1)]
  · unfold substPipe
    rw [if_neg (toLower_ne d '|' (by decide) hp)]
  · exact toLower_ne d '@' (by decide) ha

theorem stable_of_mem_stages (t : List Char) (c : Char)
    (hc : c ∈ ((((t.map subst0).map subst1).map substPipe).filter
      (fun c => !(c == '@'))).map Char.toLower) :
    stableChar c := by
  rw [List.mem_map] at hc
  obtain ⟨d, hd, rfl⟩ := hc
  rw [List.mem_filter] at hd
  obtain ⟨hdmem, hdat⟩ := hd
  have hdat2 : d ≠ '@' := by simpa using hdat
  rw [List.mem_map] at hdmem
  obtain ⟨b, hb, rfl⟩ := hdmem
  rw [List.mem_map] at hb
  obtain ⟨a, ha, rfl⟩ := hb
  rw [List.mem_map] at ha
  obtain ⟨e, he, rfl⟩ := ha
  exact stableChar_of_stage _
    (substPipe_ne_zero _ (subst1_ne_zero _ (subst0_ne_zero e)))
    (substPipe_ne_one _ (subst1_ne_one _))
    (substPipe_ne_pipe _)
    hdat2

theorem trimWs_eq_rdrop (s : List Char) :
    trimWs s = List.rdropWhile isWsChar (List.dropWhile isWsChar s) := rfl

theorem dropWhile_of_rdrop_drop (p : Char → Bool) (s : List Char) :
    List.dropWhile p (List.rdropWhile p (List.dropWhile p s)) =
      List.rdropWhile p (List.dropWhile p s) := by
  obtain ⟨t, ht⟩ := List.rdropWhile_prefix p (List.dropWhile p s)
  cases hv : List.rdropWhile p (List.dropWhile p s) with
  | nil => rfl
  | cons a w =>
    rw [hv] at ht
    have hhead : (List.dropWhile p s).head? = some a := by
      rw [← ht]
      rfl
    have hpa : p a = false := by
      have hq := List.head?_dropWhile_not p s
      rw [hhead] at hq
      exact hq
    exact List.dropWhile_cons_of_neg (by simp [hpa])

theorem trimWs_idem (s : List Char) : trimWs (trimWs s) = trimWs s := by
  rw [trimWs_eq_rdrop, trimWs_eq_rdrop, dropWhile_of_rdrop_drop,
    List.rdropWhile_idempotent]

theorem mem_of_mem_trimWs (s : List Char) (c : Char) (hc : c ∈ trimWs s) : c ∈ s := by
  rw [trimWs_eq_rdrop] at hc
  have h1 := (List.rdropWhile_prefix isWsChar (List.dropWhile isWsChar s)).subset hc
  exact List.dropWhile_subset _ h1

theorem map_eq_self_of_mem {α : Type} (f : α → α) (l : List α) (h : ∀ c ∈ l, f c = c) :
    l.map f = l := by
  induction l with
  | nil => rfl
  | cons a t ih =>
    simp only [List.map_cons, List.cons.injEq]
    exact ⟨h a (by simp), ih fun c hc => h c (by simp [hc])⟩

/-- Claim C9 auxiliary: every character surviving the normalizer is stable. -/
theorem stable_of_mem_normalize (s : List Char) (c : Char) (hc : c ∈ normalizeText s) :
    stableChar c := by
  unfold normalizeText at hc
  by_cases hs : s = []
  · rw [if_pos hs] at hc
    cases hc
  · rw [if_neg hs] at hc
    exact stable_of_mem_stages s c (mem_of_mem_trimWs _ _ hc)

theorem normalizeText_stable_eq (t : List Char) (h : ∀ c ∈ t, stableChar c)
    (ht : trimWs t = t) : normalizeText t = t := by
  unfold normalizeText
  by_cases h0 : t = []
  · rw [if_pos h0, h0]
  · rw [if_neg h0]
    rw [map_eq_self_of_mem subst0 t fun c hc => (h c hc).1]
    rw [map_eq_self_of_mem subst1 t fun c hc => (h c hc).2.1]
    rw [map_eq_self_of_mem substPipe t fun c hc => (h c hc).2.2.1]
    rw [List.filter_eq_self.mpr]
    · rw [map_eq_self_of_mem Char.toLower t fun c hc => (h c hc).2.2.2.2]
      exact ht
    · intro a ha
      simpa using (h a ha).2.2.2.1

theorem trimWs_of_normalizeText (s : List Char) :
    trimWs (normalizeText s) = normalizeText s := by
  unfold normalizeText
  by_cases hs : s = []
  · rw [if_pos hs]
    rfl
  · rw [if_neg hs]
    exact trimWs_idem _

/-- Claim C9: `normalizeText` is total and idempotent: normalizing twice gives
the same result as normalizing once, and empty input yields the empty
string. -/
theorem normalize_idempotent_total :
    (∀ s : List Char, normalizeText (normalizeText s) = normalizeText s) ∧
    normalizeText [] = [] := by
  constructor
  · intro s
    exact normalizeText_stable_eq (normalizeText s)
      (fun c hc => stable_of_mem_normalize s c hc)
      (trimWs_of_normalizeText s)
  · rfl

/-! ## Layout classifier (`validateProfileLayout` in `src/ocr.js`)

Data model: one OCR token is a raw text plus a pixel bounding box; the
classifier converts boxes to page-relative center coordinates and fills a
landmark scratch structure in a single pass over the words, mirroring the
sequence of `if` blocks in the source. -/

structure BBox where
  x0 : Frac
  y0 : Frac
  x1 : Frac
  y1 : Frac
deriving DecidableEq, Repr

structure Word where
  text : List Char
  bbox : BBox
deriving DecidableEq, Repr

def getRelY (height : Frac) (b : BBox) : Frac := ((b.y0 + b.y1) / 2) / height

def getRelX (width : Frac) (b : BBox) : Frac := ((b.x0 + b.x1) / 2) / width

structure Landmark where
  text : List Char
  y : Frac
  isStrong : Bool
deriving DecidableEq, Repr

structure ButtonLandmark where
  text : List Char
  y : Frac
  raw : List Char
deriving DecidableEq, Repr

structure Elements where
  displayName : Option Landmark
  username : Option Landmark
  joinedDate : Option Landmark
  followingRow : Option Landmark
  followButton : Option ButtonLandmark
deriving DecidableEq, Repr

def emptyElements : Elements := ⟨none, none, none, none, none⟩

/-- JS `String.prototype.includes`: the keyword occurs as a contiguous
substring. -/
def includes (s sub : List Char) : Prop := sub <:+: s

instance (s sub : List Char) : Decidable (includes s sub) := List.decidableInfix sub s

def kwJoined : List Char := "joined".toList

def kwFollowing : List Char := "following".toList

def kwFollowers : List Char := "followers".toList

def kwFollow : List Char := "follow".toList

def kwFoll0wing : List Char := "foll0wing".toList

def kwF0llow : List Char := "f0llow".toList

def reasonNoText : String := "No text found"

def reasonMismatch : String := "Layout mismatch (elements out of order)"

def reasonNotEnough : String := "Not enough profile elements found"

def reasonAmbiguous : String :=
  "Ambiguous layout (no strong markers like \x27@\x27, \x27joined\x27, \x27following\x27)"

def reasonValid : String := "Valid layout"

/-- Display name slot: `relY` in `[0.15, 0.55]`, left aligned, first qualifying
word only. -/
def scanDisplayName (relX relY : Frac) (rawText : List Char) (els : Elements) : Elements :=
  if 0.15 ≤ relY ∧ relY ≤ 0.55 ∧ relX < 0.6 then
    match els.displayName with
    | none => { els with displayName := some ⟨rawText, relY, false⟩ }
    | some _ => els
  else els

/-- Username slot: `relY` in `[0.20, 0.65]`, left aligned; a word whose raw text
starts with the handle marker replaces a previously recorded non-strong
candidate. -/
def scanUsername (relX relY : Frac) (rawText : List Char) (els : Elements) : Elements :=
  if 0.20 ≤ relY ∧ relY ≤ 0.65 ∧ relX < 0.6 then
    let isHandle : Bool := rawText.head? == some '@' || rawText.head? == some '©'
    match els.username with
    | none => { els with username := some ⟨rawText, relY, isHandle⟩ }
    | some u =>
      if isHandle && !u.isStrong then { els with username := some ⟨rawText, relY, isHandle⟩ }
      else els
  else els

/-- Joined-date slot: `relY` in `[0.30, 0.90]`, keyword `joined`, left aligned;
the assignment in the source is unguarded, so every qualifying word overwrites
the slot. -/
def scanJoined (relX relY : Frac) (rawText text : List Char) (els : Elements) : Elements :=
  if 0.30 ≤ relY ∧ relY ≤ 0.90 ∧ includes text kwJoined ∧ relX < 0.6 then
    { els with joinedDate := some ⟨rawText, relY, true⟩ }
  else els

/-- Following/followers row slot: `relY` in `[0.40, 0.95]`; unguarded
assignment. -/
def scanFollowingRow (relY : Frac) (rawText text : List Char) (els : Elements) : Elements :=
  if 0.40 ≤ relY ∧ relY ≤ 0.95 ∧ (includes text kwFollowing ∨ includes text kwFollowers) then
    { els with followingRow := some ⟨rawText, relY, true⟩ }
  else els

/-- Follow-button slot: `relX` in `[0.60, 0.98]` and `relY` in `[0.30, 0.60]`
with button keyword; unguarded assignment. -/
def scanFollowButton (relX relY : Frac) (rawText text : List Char) (els : Elements) : Elements :=
  if 0.60 ≤ relX ∧ relX ≤ 0.98 ∧ 0.30 ≤ relY ∧ relY ≤ 0.60 then
    if includes text kwFollowing ∨ includes text kwFollow then
      { els with followButton := some ⟨rawText, relY, rawText⟩ }
    else els
  else els

/-- One iteration of the scan loop of `validateProfileLayout`: words whose
normalized text is shorter than 2 characters are skipped as noise, otherwise
the five slot blocks run in source order. -/
def scanWord (width height : Frac) (els : Elements) (w : Word) : Elements :=
  let rawText := w.text
  let text := normalizeText rawText
  let relY := getRelY height w.bbox
  let relX := getRelX width w.bbox
  if text.length < 2 then els
  else
    scanFollowButton relX relY rawText text
      (scanFollowingRow relY rawText text
        (scanJoined relX relY rawText text
          (scanUsername relX relY rawText
            (scanDisplayName relX relY rawText els))))

def scanWords (width height : Frac) (words : List Word) : Elements :=
  words.foldl (scanWord width height) emptyElements

def orderChecks (els : Elements) : List (Option Landmark) :=
  [els.displayName, els.username, els.joinedDate, els.followingRow]

def presentLandmarks (els : Elements) : List Landmark :=
  (orderChecks els).filterMap id

def foundCountOf (els : Elements) : Nat := (presentLandmarks els).length

def strongCountOf (els : Elements) : Nat :=
  ((presentLandmarks els).filter (fun l => l.isStrong)).length

/-- The ordering walk of `validateProfileLayout`: present landmarks must have
non-decreasing `y` starting from floor `0`; absent landmarks are skipped.
Returns `none` on the first violation, otherwise the found/strong counts. -/
def orderWalk : List (Option Landmark) → Frac → Nat → Nat → Option (Nat × Nat)
  | [], _, f, s => some (f, s)
  | none :: rest, lastY, f, s => orderWalk rest lastY f s
  | some el :: rest, lastY, f, s =>
    if el.y < lastY then none
    else orderWalk rest el.y (f + 1) (if el.isStrong then s + 1 else s)

inductive FollowState
  | following
  | not_following
  | unknown
deriving DecidableEq, Repr

/-- Follow-state determination (step 3 of `validateProfileLayout`): from the
`followButton` slot only. -/
def followStateOf (els : Elements) : FollowState :=
  match els.followButton with
  | none => FollowState.unknown
  | some btn =>
    let btnText := normalizeText btn.raw
    if includes btnText kwFollowing ∨ includes btnText kwFoll0wing then
      FollowState.following
    else if includes btnText kwFollow ∨ includes btnText kwF0llow then
      FollowState.not_following
    else FollowState.unknown

structure Verdict where
  isValid : Bool
  reason : String
  followState : FollowState
  confidence : Nat
deriving DecidableEq, Repr

/-- The layout classifier `validateProfileLayout(ocrData, width, height)`. -/
def validateProfileLayout (words : List Word) (width height : Frac) : Verdict :=
  if words.isEmpty then ⟨false, reasonNoText, FollowState.unknown, 0⟩
  else
    let els := scanWords width height words
    match orderWalk (orderChecks els) 0 0 0 with
    | none => ⟨false, reasonMismatch, FollowState.unknown, 50⟩
    | some (foundCount, strongCount) =>
      let followState := followStateOf els
      if foundCount < 2 then ⟨false, reasonNotEnough, FollowState.unknown, 20⟩
      else if strongCount = 0 ∧ foundCount < 3 then
        ⟨false, reasonAmbiguous, FollowState.unknown, 40⟩
      else ⟨true, reasonValid, followState, if strongCount > 1 then 95 else 85⟩

/-! ### Ordering-walk lemmas -/

theorem orderWalk_counts (l : List (Option Landmark)) :
    ∀ (y : Frac) (f s f2 s2 : Nat), orderWalk l y f s = some (f2, s2) →
      f2 = f + (l.filterMap id).length ∧
      s2 = s + ((l.filterMap id).filter (fun la => la.isStrong)).length := by
  induction l with
  | nil =>
    intro y f s f2 s2 h
    simp only [orderWalk, Option.some.injEq, Prod.mk.injEq] at h
    simp [← h.1, ← h.2]
  | cons o rest ih =>
    intro y f s f2 s2 h
    cases o with
    | none =>
      simpa using ih y f s f2 s2 h
    | some el =>
      rw [orderWalk] at h
      split at h
      · exact absurd h (by simp)
      · have h2 := ih el.y (f + 1) (if el.isStrong then s + 1 else s) f2 s2 h
        by_cases hs : el.isStrong = true <;>
          simp [List.filterMap_cons, List.filter_cons, hs] at h2 ⊢ <;> omega

theorem orderWalk_none_iff (l : List (Option Landmark)) :
    ∀ (y : Frac) (f s : Nat), orderWalk l y f s = none ↔
      ¬ List.Chain (fun a b : Frac => a ≤ b) y ((l.filterMap id).map Landmark.y) := by
  induction l with
  | nil =>
    intro y f s
    simp [orderWalk]
  | cons o rest ih =>
    intro y f s
    cases o with
    | none => simpa using ih y f s
    | some el =>
      rw [orderWalk]
      by_cases hlt : el.y < y
      · rw [if_pos hlt]
        have hyle : ¬ y ≤ el.y := by
          intro hc
          rw [← Frac.not_lt] at hc
          exact hc hlt
        simp [List.filterMap_cons, List.chain_cons, hyle]
      · rw [if_neg hlt]
        have hyle : y ≤ el.y := Frac.not_lt.mp hlt
        rw [ih el.y (f + 1) (if el.isStrong then s + 1 else s)]
        simp [List.filterMap_cons, List.chain_cons, hyle]

/-- Kernel-computable decision procedure for the non-decreasing chain used in
the ordering check. -/
def chainLeB : Frac → List Frac → Bool
  | _, [] => true
  | a, b :: l => decide (a ≤ b) && chainLeB b l

theorem chainLeB_iff (a : Frac) (l : List Frac) :
    chainLeB a l = true ↔ List.Chain (fun x y : Frac => x ≤ y) a l := by
  induction l generalizing a with
  | nil => simp [chainLeB]
  | cons b t ih => simp [chainLeB, List.chain_cons, ih]

instance (a : Frac) (l : List Frac) :
    Decidable (List.Chain (fun x y : Frac => x ≤ y) a l) :=
  decidable_of_iff (chainLeB a l = true) (chainLeB_iff a l)

/-- Claim C2: for every non-empty word list whose present landmarks pass the
ordering check, the final verdict is determined by the found/strong landmark
counts over the four ordering-checked slots exactly as in the source's final
validity check. -/
theorem verdict_determined_by_counts (words : List Word) (width height : Frac)
    (hne : words ≠ [])
    (hord : List.Chain (fun a b : Frac => a ≤ b) 0
      ((presentLandmarks (scanWords width height words)).map Landmark.y)) :
    validateProfileLayout words width height =
      (if foundCountOf (scanWords width height words) < 2 then
        ⟨false, reasonNotEnough, FollowState.unknown, 20⟩
      else if strongCountOf (scanWords width height words) = 0 ∧
          foundCountOf (scanWords width height words) < 3 then
        ⟨false, reasonAmbiguous, FollowState.unknown, 40⟩
      else ⟨true, reasonValid, followStateOf (scanWords width height words),
        if strongCountOf (scanWords width height words) > 1 then 95 else 85⟩) := by
  have hne2 : words.isEmpty = false := by simpa using hne
  simp only [validateProfileLayout, hne2, Bool.false_eq_true, if_false]
  cases hw : orderWalk (orderChecks (scanWords width height words)) 0 0 0 with
  | none =>
    exact absurd ((orderWalk_none_iff _ 0 0 0).mp hw) (fun hc => hc hord)
  | some p =>
    obtain ⟨f2, s2⟩ := p
    have hc := orderWalk_counts _ 0 0 0 f2 s2 hw
    have hf : f2 = foundCountOf (scanWords width height words) := by
      have h1 := hc.1
      simpa [foundCountOf, presentLandmarks] using h1
    have hs : s2 = strongCountOf (scanWords width height words) := by
      have h2 := hc.2
      simpa [strongCountOf, presentLandmarks] using h2
    simp only [hf, hs]

/-- Claim C3: whenever the present landmarks of the four ordering-checked
slots, walked in the fixed slot order with initial floor `0` and with absent
slots skipped, violate the non-decreasing-`y` chain, the classifier answers
the layout-mismatch verdict with followState unknown and confidence 50. -/
theorem out_of_order_mismatch (words : List Word) (width height : Frac)
    (hne : words ≠ [])
    (hord : ¬ List.Chain (fun a b : Frac => a ≤ b) 0
      ((presentLandmarks (scanWords width height words)).map Landmark.y)) :
    validateProfileLayout words width height =
      ⟨false, reasonMismatch, FollowState.unknown, 50⟩ := by
  have hne2 : words.isEmpty = false := by simpa using hne
  have hnn : orderWalk (orderChecks (scanWords width height words)) 0 0 0 = none :=
    (orderWalk_none_iff _ 0 0 0).mpr hord
  simp only [validateProfileLayout, hne2, Bool.false_eq_true, if_false, hnn]

/-- Concrete input: a handle word at relative height 0.25 and a joined word at
0.5, both left aligned. -/
def wHandle : Word := ⟨"@jane".toList, ⟨⟨100, 1⟩, ⟨400, 1⟩, ⟨300, 1⟩, ⟨600, 1⟩⟩⟩

def wJoinedLow : Word := ⟨"Joined".toList, ⟨⟨100, 1⟩, ⟨900, 1⟩, ⟨300, 1⟩, ⟨1100, 1⟩⟩⟩

def wName : Word := ⟨"Name".toList, ⟨⟨100, 1⟩, ⟨900, 1⟩, ⟨300, 1⟩, ⟨1100, 1⟩⟩⟩

/-- Witness for claim C2 at a concrete two-word profile. -/
theorem verdict_determined_by_counts_witness :
    validateProfileLayout [wHandle, wJoinedLow] 1000 2000 =
      (if foundCountOf (scanWords 1000 2000 [wHandle, wJoinedLow]) < 2 then
        ⟨false, reasonNotEnough, FollowState.unknown, 20⟩
      else if strongCountOf (scanWords 1000 2000 [wHandle, wJoinedLow]) = 0 ∧
          foundCountOf (scanWords 1000 2000 [wHandle, wJoinedLow]) < 3 then
        ⟨false, reasonAmbiguous, FollowState.unknown, 40⟩
      else ⟨true, reasonValid, followStateOf (scanWords 1000 2000 [wHandle, wJoinedLow]),
        if strongCountOf (scanWords 1000 2000 [wHandle, wJoinedLow]) > 1 then 95 else 85⟩) :=
  verdict_determined_by_counts [wHandle, wJoinedLow] 1000 2000 (by decide) (by decide)

/-- Witness for claim C3: a display-name word recorded at 0.5 followed by a
handle word that supersedes the username slot at 0.25 violates the order. -/
theorem out_of_order_mismatch_witness :
    validateProfileLayout [wName, wHandle] 1000 2000 =
      ⟨false, reasonMismatch, FollowState.unknown, 50⟩ :=
  out_of_order_mismatch [wName, wHandle] 1000 2000 (by decide) (by decide)

/-! ### Follow state comes from the button zone only (claim C4) -/

/-- Qualification for the follow-button slot: the spatial window on the right
side together with the button keyword on the normalized text. -/
def btnWindowQual (width height : Frac) (w : Word) : Prop :=
  0.60 ≤ getRelX width w.bbox ∧ getRelX width w.bbox ≤ 0.98 ∧
  0.30 ≤ getRelY height w.bbox ∧ getRelY height w.bbox ≤ 0.60 ∧
  (includes (normalizeText w.text) kwFollowing ∨ includes (normalizeText w.text) kwFollow)

instance (width height : Frac) (w : Word) : Decidable (btnWindowQual width height w) :=
  inferInstanceAs (Decidable
    (0.60 ≤ getRelX width w.bbox ∧ getRelX width w.bbox ≤ 0.98 ∧
     0.30 ≤ getRelY height w.bbox ∧ getRelY height w.bbox ≤ 0.60 ∧
     (includes (normalizeText w.text) kwFollowing ∨ includes (normalizeText w.text) kwFollow)))

theorem scanDisplayName_followButton (relX relY : Frac) (rawText : List Char)
    (els : Elements) :
    (scanDisplayName relX relY rawText els).followButton = els.followButton := by
  unfold scanDisplayName
  split
  · cases els.displayName <;> rfl
  · rfl

theorem scanUsername_followButton (relX relY : Frac) (rawText : List Char)
    (els : Elements) :
    (scanUsername relX relY rawText els).followButton = els.followButton := by
  unfold scanUsername
  split
  · cases els.username with
    | none => rfl
    | some u =>
      dsimp only
      split <;> rfl
  · rfl

theorem scanJoined_followButton (relX relY : Frac) (rawText text : List Char)
    (els : Elements) :
    (scanJoined relX relY rawText text els).followButton = els.followButton := by
  unfold scanJoined
  split <;> rfl

theorem scanFollowingRow_followButton (relY : Frac) (rawText text : List Char)
    (els : Elements) :
    (scanFollowingRow relY rawText text els).followButton = els.followButton := by
  unfold scanFollowingRow
  split <;> rfl

theorem scanWord_followButton_pres (width height : Frac) (els : Elements) (wd : Word)
    (h : ¬ btnWindowQual width height wd) :
    (scanWord width height els wd).followButton = els.followButton := by
  simp only [scanWord]
  split
  · rfl
  · unfold scanFollowButton
    split
    · split
      · next hwin hkw =>
        exact absurd ⟨hwin.1, hwin.2.1, hwin.2.2.1, hwin.2.2.2, hkw⟩ h
      · rw [scanFollowingRow_followButton, scanJoined_followButton,
          scanUsername_followButton, scanDisplayName_followButton]
    · rw [scanFollowingRow_followButton, scanJoined_followButton,
        scanUsername_followButton, scanDisplayName_followButton]

theorem foldl_followButton_none (width height : Frac) :
    ∀ (words : List Word) (els : Elements),
      (∀ wd ∈ words, ¬ btnWindowQual width height wd) →
      els.followButton = none →
      (words.foldl (scanWord width height) els).followButton = none := by
  intro words
  induction words with
  | nil =>
    intro els _ he
    simpa using he
  | cons wd rest ih =>
    intro els h he
    rw [List.foldl_cons]
    refine ih _ (fun x hx => h x (List.mem_cons_of_mem _ hx)) ?_
    rw [scanWord_followButton_pres width height els wd (h wd (List.mem_cons_self _ _))]
    exact he

/-- Claim C4: the follow state is computed from the follow-button slot only.
If no word satisfies the follow-button spatial window (with the button
keyword), the classifier's verdict carries followState unknown, no matter what
appears elsewhere on the page; and when a button word was recorded, the state
is read off the recorded raw text exactly as in the source. -/
theorem followState_button_zone_only :
    (∀ (words : List Word) (width height : Frac),
      (∀ wd ∈ words, ¬ btnWindowQual width height wd) →
      (validateProfileLayout words width height).followState = FollowState.unknown) ∧
    (∀ (els : Elements) (btn : ButtonLandmark), els.followButton = some btn →
      followStateOf els =
        (if includes (normalizeText btn.raw) kwFollowing ∨
            includes (normalizeText btn.raw) kwFoll0wing then FollowState.following
         else if includes (normalizeText btn.raw) kwFollow ∨
            includes (normalizeText btn.raw) kwF0llow then FollowState.not_following
         else FollowState.unknown)) := by
  constructor
  · intro words width height h
    by_cases hne : words.isEmpty
    · simp [validateProfileLayout, hne]
    · have hb : (scanWords width height words).followButton = none :=
        foldl_followButton_none width height words emptyElements h rfl
      have hfb : followStateOf (scanWords width height words) = FollowState.unknown := by
        unfold followStateOf
        rw [hb]
      simp only [validateProfileLayout, Bool.not_eq_true] at *
      rw [if_neg (by simp [hne])]
      cases orderWalk (orderChecks (scanWords width height words)) 0 0 0 with
      | none => rfl
      | some p =>
        obtain ⟨f2, s2⟩ := p
        dsimp only
        split
        · rfl
        · split
          · rfl
          · exact hfb
  · intro els btn hbtn
    unfold followStateOf
    rw [hbtn]

/-- A page with the word Following on the left side only: it can fill the
following-row slot but not the button slot. -/
def wFollowingLeft : Word := ⟨"Following".toList, ⟨⟨100, 1⟩, ⟨1700, 1⟩, ⟨300, 1⟩, ⟨1900, 1⟩⟩⟩

/-- Witness for claim C4 at a concrete input where "Following" appears outside
the button zone. -/
theorem followState_button_zone_only_witness :
    (validateProfileLayout [wFollowingLeft] 1000 2000).followState = FollowState.unknown :=
  followState_button_zone_only.1 [wFollowingLeft] 1000 2000 (by decide)

/-! ### The OCR-confusable follow-state branches are unreachable (claim C10) -/

theorem zero_not_mem_normalizeText (raw : List Char) : '0' ∉ normalizeText raw := by
  intro hmem
  have hst := stable_of_mem_normalize raw '0' hmem
  have h0 := hst.1
  simp [subst0] at h0

/-- Simplified follow-state determination, written after the spec text of the
refinement claim C10: it tests only the plain keywords and drops the
OCR-confusable `foll0wing` and `f0llow` branches. -/
def followStateOfSimple (els : Elements) : FollowState :=
  match els.followButton with
  | none => FollowState.unknown
  | some btn =>
    let btnText := normalizeText btn.raw
    if includes btnText kwFollowing then FollowState.following
    else if includes btnText kwFollow then FollowState.not_following
    else FollowState.unknown

/-- Claim C10: because normalization already replaced every digit 0 by the
letter o in the button text, the confusable checks can never fire, and the
computed follow state coincides with the simplified classifier's on every
landmark structure, hence on every input. -/
theorem confusable_branches_redundant :
    (∀ els : Elements, followStateOf els = followStateOfSimple els) ∧
    (∀ (words : List Word) (width height : Frac),
      followStateOf (scanWords width height words) =
        followStateOfSimple (scanWords width height words)) := by
  have hmain : ∀ els : Elements, followStateOf els = followStateOfSimple els := by
    intro els
    unfold followStateOf followStateOfSimple
    cases els.followButton with
    | none => rfl
    | some btn =>
      dsimp only
      have h0 : ¬ includes (normalizeText btn.raw) kwFoll0wing := by
        intro hinf
        exact zero_not_mem_normalizeText btn.raw (hinf.subset (by decide))
      have h1 : ¬ includes (normalizeText btn.raw) kwF0llow := by
        intro hinf
        exact zero_not_mem_normalizeText btn.raw (hinf.subset (by decide))
      simp [h0, h1]
  exact ⟨hmain, fun words width height => hmain _⟩

/-! ### Landmark slot write policy (claim C5)

The source guards only the displayName and username assignments; the
joinedDate, followingRow and followButton assignments are unguarded, so for
those slots the last qualifying word wins. -/

theorem scanUsername_displayName (relX relY : Frac) (rawText : List Char) (els : Elements) :
    (scanUsername relX relY rawText els).displayName = els.displayName := by
  unfold scanUsername
  split
  · cases els.username with
    | none => rfl
    | some u =>
      dsimp only
      split <;> rfl
  · rfl

theorem scanJoined_displayName (relX relY : Frac) (rawText text : List Char) (els : Elements) :
    (scanJoined relX relY rawText text els).displayName = els.displayName := by
  unfold scanJoined
  split <;> rfl

theorem scanFollowingRow_displayName (relY : Frac) (rawText text : List Char) (els : Elements) :
    (scanFollowingRow relY rawText text els).displayName = els.displayName := by
  unfold scanFollowingRow
  split <;> rfl

theorem scanFollowButton_displayName (relX relY : Frac) (rawText text : List Char)
    (els : Elements) :
    (scanFollowButton relX relY rawText text els).displayName = els.displayName := by
  unfold scanFollowButton
  split
  · split <;> rfl
  · rfl

theorem scanDisplayName_keep (relX relY : Frac) (rawText : List Char) (els : Elements)
    (l : Landmark) (hl : els.displayName = some l) :
    (scanDisplayName relX relY rawText els).displayName = some l := by
  unfold scanDisplayName
  split
  · rw [hl]
    exact hl
  · exact hl

theorem scanDisplayName_username (relX relY : Frac) (rawText : List Char) (els : Elements) :
    (scanDisplayName relX relY rawText els).username = els.username := by
  unfold scanDisplayName
  split
  · cases els.displayName <;> rfl
  · rfl

theorem scanJoined_username (relX relY : Frac) (rawText text : List Char) (els : Elements) :
    (scanJoined relX relY rawText text els).username = els.username := by
  unfold scanJoined
  split <;> rfl

theorem scanFollowingRow_username (relY : Frac) (rawText text : List Char) (els : Elements) :
    (scanFollowingRow relY rawText text els).username = els.username := by
  unfold scanFollowingRow
  split <;> rfl

theorem scanFollowButton_username (relX relY : Frac) (rawText text : List Char)
    (els : Elements) :
    (scanFollowButton relX relY rawText text els).username = els.username := by
  unfold scanFollowButton
  split
  · split <;> rfl
  · rfl

theorem scanUsername_strong_keep (relX relY : Frac) (rawText : List Char) (els : Elements)
    (u : Landmark) (hu : els.username = some u) (hs : u.isStrong = true) :
    (scanUsername relX relY rawText els).username = some u := by
  unfold scanUsername
  split
  · rw [hu]
    dsimp only
    rw [hs]
    simp [hu]
  · exact hu

theorem scanUsername_cases (relX relY : Frac) (rawText : List Char) (els : Elements)
    (u : Landmark) (hu : els.username = some u) :
    (scanUsername relX relY rawText els).username = some u ∨
    ((rawText.head? = some '@' ∨ rawText.head? = some '©') ∧ u.isStrong = false ∧
      (scanUsername relX relY rawText els).username = some ⟨rawText, relY, true⟩) := by
  unfold scanUsername
  split
  · rw [hu]
    dsimp only
    by_cases hh : (rawText.head? == some '@' || rawText.head? == some '©') = true
    · by_cases hs : u.isStrong = true
      · left
        rw [hs]
        simp [hu]
      · right
        refine ⟨by simpa using hh, by simpa using hs, ?_⟩
        rw [hh]
        simp only [Bool.not_eq_true] at hs
        rw [hs]
        simp
    · left
      rw [Bool.not_eq_true] at hh
      rw [hh]
      simp [hu]
  · left
    exact hu

theorem scanFollowingRow_joinedDate (relY : Frac) (rawText text : List Char) (els : Elements) :
    (scanFollowingRow relY rawText text els).joinedDate = els.joinedDate := by
  unfold scanFollowingRow
  split <;> rfl

theorem scanFollowButton_joinedDate (relX relY : Frac) (rawText text : List Char)
    (els : Elements) :
    (scanFollowButton relX relY rawText text els).joinedDate = els.joinedDate := by
  unfold scanFollowButton
  split
  · split <;> rfl
  · rfl

theorem scanFollowButton_followingRow (relX relY : Frac) (rawText text : List Char)
    (els : Elements) :
    (scanFollowButton relX relY rawText text els).followingRow = els.followingRow := by
  unfold scanFollowButton
  split
  · split <;> rfl
  · rfl

theorem scanJoined_sets (relX relY : Frac) (rawText text : List Char) (els : Elements)
    (h : 0.30 ≤ relY ∧ relY ≤ 0.90 ∧ includes text kwJoined ∧ relX < 0.6) :
    (scanJoined relX relY rawText text els).joinedDate = some ⟨rawText, relY, true⟩ := by
  unfold scanJoined
  rw [if_pos h]

theorem scanFollowingRow_sets (relY : Frac) (rawText text : List Char) (els : Elements)
    (h : 0.40 ≤ relY ∧ relY ≤ 0.95 ∧
      (includes text kwFollowing ∨ includes text kwFollowers)) :
    (scanFollowingRow relY rawText text els).followingRow = some ⟨rawText, relY, true⟩ := by
  unfold scanFollowingRow
  rw [if_pos h]

theorem scanFollowButton_sets (relX relY : Frac) (rawText text : List Char) (els : Elements)
    (hwin : 0.60 ≤ relX ∧ relX ≤ 0.98 ∧ 0.30 ≤ relY ∧ relY ≤ 0.60)
    (hkw : includes text kwFollowing ∨ includes text kwFollow) :
    (scanFollowButton relX relY rawText text els).followButton =
      some ⟨rawText, relY, rawText⟩ := by
  unfold scanFollowButton
  rw [if_pos hwin, if_pos hkw]

/-- Qualification of a word for the joinedDate slot (noise guard included). -/
def joinedQual (width height : Frac) (w : Word) : Prop :=
  ¬ (normalizeText w.text).length < 2 ∧
  0.30 ≤ getRelY height w.bbox ∧ getRelY height w.bbox ≤ 0.90 ∧
  includes (normalizeText w.text) kwJoined ∧ getRelX width w.bbox < 0.6

/-- Qualification of a word for the followingRow slot (noise guard included). -/
def rowQual (height : Frac) (w : Word) : Prop :=
  ¬ (normalizeText w.text).length < 2 ∧
  0.40 ≤ getRelY height w.bbox ∧ getRelY height w.bbox ≤ 0.95 ∧
  (includes (normalizeText w.text) kwFollowing ∨ includes (normalizeText w.text) kwFollowers)

/-- Qualification of a word for the followButton slot (noise guard included). -/
def buttonQual (width height : Frac) (w : Word) : Prop :=
  ¬ (normalizeText w.text).length < 2 ∧ btnWindowQual width height w

instance (width height : Frac) (w : Word) : Decidable (joinedQual width height w) :=
  inferInstanceAs (Decidable
    (¬ (normalizeText w.text).length < 2 ∧
     0.30 ≤ getRelY height w.bbox ∧ getRelY height w.bbox ≤ 0.90 ∧
     includes (normalizeText w.text) kwJoined ∧ getRelX width w.bbox < 0.6))

instance (height : Frac) (w : Word) : Decidable (rowQual height w) :=
  inferInstanceAs (Decidable
    (¬ (normalizeText w.text).length < 2 ∧
     0.40 ≤ getRelY height w.bbox ∧ getRelY height w.bbox ≤ 0.95 ∧
     (includes (normalizeText w.text) kwFollowing ∨
      includes (normalizeText w.text) kwFollowers)))

instance (width height : Frac) (w : Word) : Decidable (buttonQual width height w) :=
  inferInstanceAs (Decidable
    (¬ (normalizeText w.text).length < 2 ∧ btnWindowQual width height w))

/-- Two words that both qualify for the joinedDate slot, at heights 0.5 and
0.6. -/
def wJoinA : Word := ⟨"JoinedA".toList, ⟨⟨100, 1⟩, ⟨900, 1⟩, ⟨300, 1⟩, ⟨1100, 1⟩⟩⟩

def wJoinB : Word := ⟨"JoinedB".toList, ⟨⟨100, 1⟩, ⟨1100, 1⟩, ⟨300, 1⟩, ⟨1300, 1⟩⟩⟩

/-- Counterexample to claim C5 as stated: the first qualifying word fills the
joinedDate slot, yet a second, later qualifying word replaces it — the slot is
not write-once. -/
theorem joined_slot_overwritten :
    ((scanWords 1000 2000 [wJoinA]).joinedDate).map Landmark.text =
      some "JoinedA".toList ∧
    joinedQual 1000 2000 wJoinB ∧
    ((scanWords 1000 2000 [wJoinA, wJoinB]).joinedDate).map Landmark.text =
      some "JoinedB".toList := by decide

/-- Amended claim C5: during a single pass, displayName is write-once; the
username slot is write-once except that a word whose raw text starts with the
handle marker replaces a previously recorded non-strong candidate (and is then
recorded strong); the joinedDate, followingRow and followButton slots are
last-qualifying-word-wins — every qualifying word overwrites them. -/
theorem landmark_write_policy :
    (∀ (width height : Frac) (els : Elements) (wd : Word) (l : Landmark),
      els.displayName = some l → (scanWord width height els wd).displayName = some l) ∧
    (∀ (width height : Frac) (els : Elements) (wd : Word) (u : Landmark),
      els.username = some u → u.isStrong = true →
      (scanWord width height els wd).username = some u) ∧
    (∀ (width height : Frac) (els : Elements) (wd : Word) (u : Landmark),
      els.username = some u →
      (scanWord width height els wd).username = some u ∨
      ((wd.text.head? = some '@' ∨ wd.text.head? = some '©') ∧ u.isStrong = false ∧
        (scanWord width height els wd).username =
          some ⟨wd.text, getRelY height wd.bbox, true⟩)) ∧
    (∀ (width height : Frac) (els : Elements) (wd : Word),
      joinedQual width height wd →
      (scanWord width height els wd).joinedDate =
        some ⟨wd.text, getRelY height wd.bbox, true⟩) ∧
    (∀ (width height : Frac) (els : Elements) (wd : Word),
      rowQual height wd →
      (scanWord width height els wd).followingRow =
        some ⟨wd.text, getRelY height wd.bbox, true⟩) ∧
    (∀ (width height : Frac) (els : Elements) (wd : Word),
      buttonQual width height wd →
      (scanWord width height els wd).followButton =
        some ⟨wd.text, getRelY height wd.bbox, wd.text⟩) := by
  refine ⟨?_, ?_, ?_, ?_, ?_, ?_⟩
  · intro width height els wd l hl
    simp only [scanWord]
    split
    · exact hl
    · rw [scanFollowButton_displayName, scanFollowingRow_displayName,
        scanJoined_displayName, scanUsername_displayName]
      exact scanDisplayName_keep _ _ _ _ l hl
  · intro width height els wd u hu hs
    simp only [scanWord]
    split
    · exact hu
    · rw [scanFollowButton_username, scanFollowingRow_username, scanJoined_username]
      exact scanUsername_strong_keep _ _ _ _ u
        (by rw [scanDisplayName_username]; exact hu) hs
  · intro width height els wd u hu
    simp only [scanWord]
    split
    · left
      exact hu
    · rw [scanFollowButton_username, scanFollowingRow_username, scanJoined_username]
      exact scanUsername_cases _ _ _ _ u (by rw [scanDisplayName_username]; exact hu)
  · intro width height els wd hq
    simp only [scanWord]
    rw [if_neg hq.1]
    rw [scanFollowButton_joinedDate, scanFollowingRow_joinedDate]
    exact scanJoined_sets _ _ _ _ _ ⟨hq.2.1, hq.2.2.1, hq.2.2.2.1, hq.2.2.2.2⟩
  · intro width height els wd hq
    simp only [scanWord]
    rw [if_neg hq.1]
    rw [scanFollowButton_followingRow]
    exact scanFollowingRow_sets _ _ _ _ ⟨hq.2.1, hq.2.2.1, hq.2.2.2⟩
  · intro width height els wd hq
    simp only [scanWord]
    rw [if_neg hq.1]
    exact scanFollowButton_sets _ _ _ _ _
      ⟨hq.2.1, hq.2.2.1, hq.2.2.2.1, hq.2.2.2.2.1⟩ hq.2.2.2.2.2

/-- Witness for the amended claim C5: a filled displayName slot survives a
further word. -/
theorem landmark_write_policy_witness :
    (scanWord 1000 2000
      { emptyElements with displayName := some ⟨"Jane".toList, 0.25, false⟩ }
      wJoinA).displayName = some ⟨"Jane".toList, 0.25, false⟩ :=
  landmark_write_policy.1 1000 2000 _ wJoinA _ rfl

/-! ## Verification session state machine and decision step (`src/handlers.js`)

The per-user entry of the session map is modelled as an `Option Session`
(`none` = no entry).  Each inbound platform event that can touch a given
user's entry is an `Event`; `stepFn` is the transition function obtained from
the corresponding handlers. -/

inductive Step
  | username
  | follow_check
  | screenshot
  | done
  | broadcast_msg
deriving DecidableEq, Repr

structure Session where
  step : Step
  username : Option (List Char)
  attempts : Nat
  startTime : Nat
deriving DecidableEq, Repr

def SESSION_TIMEOUT : Nat := 10 * 60 * 1000

/-- `resetSession(userId)`: assigns a fresh session in step `username` with a
null handle and zero attempts. -/
def resetSession (now : Nat) : Session := ⟨Step.username, none, 0, now⟩

/-- `text.trim().replace(/^@/, "")`: the regex strips at most one leading
at-sign. -/
def stripLeadingAt (s : List Char) : List Char :=
  match s with
  | '@' :: rest => rest
  | _ => s

/-- One character of the handle alphabet `[a-zA-Z0-9_]`. -/
def isHandleChar (c : Char) : Bool :=
  (97 ≤ c.toNat && c.toNat ≤ 122) || (65 ≤ c.toNat && c.toNat ≤ 90) ||
  (48 ≤ c.toNat && c.toNat ≤ 57) || c == '_'

def msgBadLength : String := "Bad username. 1-15 chars."

def msgBadChars : String := "Letters, numbers, underscores only."

/-- The username-step block of the message handler: trim, strip one leading
at-sign, check length 1..15, check the handle alphabet; on success store the
handle and move to `follow_check`, otherwise leave the session untouched and
surface the validation error. -/
def handleUsernameText (sess : Session) (txt : List Char) : Session × Option String :=
  let username := stripLeadingAt (trimWs txt)
  if username.length < 1 ∨ username.length > 15 then
    (sess, some msgBadLength)
  else if ¬ username.all isHandleChar then
    (sess, some msgBadChars)
  else
    ({ sess with username := some username, step := Step.follow_check }, none)

inductive DecisionAction
  | auto_accept
  | escalate
deriving DecidableEq, Repr

/-- The auto-accept decision of the screenshot handler: lower-case the full
recognized text, look for the lower-cased owner handle anywhere in it, and
auto-accept exactly on valid layout + following + owner found; otherwise the
evidence goes to manual review. -/
def autoAcceptCheck (validation : Verdict) (text ownerX : List Char) : DecisionAction :=
  let fullText := text.map Char.toLower
  let hasOwner := decide ((ownerX.map Char.toLower) <:+: fullText)
  if validation.isValid ∧ validation.followState = FollowState.following ∧ hasOwner = true
    then DecisionAction.auto_accept
  else DecisionAction.escalate

/-- The platform events that can touch one user's session entry:
`/start` and `/cancel` (both call `resetSession`), a text message, the
`i_have_followed` button, a screenshot (with the recognized words, the page
dimensions and the full recognized text), an OCR failure, the admin
verify/decline/`/verify` deletions, the admin broadcast flow, and the idle
sweep. -/
inductive Event
  | start (now : Nat)
  | cancel (now : Nat)
  | textMsg (txt : List Char)
  | iHaveFollowed
  | photo (words : List Word) (width height : Frac) (fullText : List Char)
  | photoError
  | adminDelete
  | broadcastStart (now : Nat)
  | broadcastMsg
  | sweep (now : Nat)

def stepFn (ownerX : List Char) (s : Option Session) : Event → Option Session
  | Event.start now => some (resetSession now)
  | Event.cancel now => some (resetSession now)
  | Event.textMsg txt =>
    match s with
    | none => none
    | some sess =>
      if sess.step = Step.username then some (handleUsernameText sess txt).1
      else some sess
  | Event.iHaveFollowed =>
    match s with
    | none => none
    | some sess =>
      if sess.username.getD [] = [] then some sess
      else some { sess with step := Step.screenshot }
  | Event.photo words width height fullText =>
    match s with
    | none => none
    | some sess =>
      if sess.step = Step.screenshot then
        match autoAcceptCheck (validateProfileLayout words width height) fullText ownerX with
        | DecisionAction.auto_accept => none
        | DecisionAction.escalate => some { sess with step := Step.done }
      else some sess
  | Event.photoError =>
    match s with
    | none => none
    | some sess =>
      if sess.step = Step.screenshot then some { sess with step := Step.done }
      else some sess
  | Event.adminDelete => none
  | Event.broadcastStart now => some { resetSession now with step := Step.broadcast_msg }
  | Event.broadcastMsg =>
    match s with
    | none => none
    | some sess =>
      if sess.step = Step.broadcast_msg then none else some sess
  | Event.sweep now =>
    match s with
    | none => none
    | some sess =>
      if now - sess.startTime > SESSION_TIMEOUT then none else some sess

def applyEvents (ownerX : List Char) (evs : List Event) : Option Session :=
  evs.foldl (stepFn ownerX) none

/-- Claim C1: the decision step auto-accepts exactly when the verdict is
valid, the follow state is "following", and the case-folded full recognized
text contains the case-folded target handle as a substring; in every other
case the evidence is escalated to the operator. -/
theorem decision_auto_accept_iff (v : Verdict) (text ownerX : List Char) :
    autoAcceptCheck v text ownerX =
      (if v.isValid = true ∧ v.followState = FollowState.following ∧
          (ownerX.map Char.toLower) <:+: (text.map Char.toLower)
        then DecisionAction.auto_accept else DecisionAction.escalate) := by
  simp only [autoAcceptCheck]
  split
  · next h =>
    rw [if_pos ⟨h.1, h.2.1, of_decide_eq_true h.2.2⟩]
  · next h =>
    rw [if_neg (fun hc => h ⟨hc.1, hc.2.1, decide_eq_true hc.2.2⟩)]

/-- Counterexample to claim C6 as stated: an explicit cancel does not delete
the session entry — `resetSession` stores a fresh session instead, so the user
is not left in the "no session" state. -/
theorem cancel_keeps_session_entry :
    stepFn ("x".toList) (some ⟨Step.screenshot, some ("jane".toList), 0, 0⟩)
      (Event.cancel 5) ≠ none := by decide

/-- Amended claim C6: an explicit cancel in any session state resets the
user's entry to a fresh session in step `username` with no stored handle and
zero attempts (a restart); the entry itself remains in the map rather than
being deleted. -/
theorem cancel_resets_session :
    ∀ (ownerX : List Char) (s : Option Session) (now : Nat),
      stepFn ownerX s (Event.cancel now) = some ⟨Step.username, none, 0, now⟩ := by
  intro ownerX s now
  rfl

/-- The handle invariant: a present session in step `screenshot` or `done`
has a non-empty stored handle. -/
def handleOk : Option Session → Prop
  | none => True
  | some sess =>
    (sess.step = Step.screenshot ∨ sess.step = Step.done) →
      ∃ u, sess.username = some u ∧ u ≠ []

theorem handleOk_step (ownerX : List Char) (s : Option Session) (e : Event)
    (h : handleOk s) : handleOk (stepFn ownerX s e) := by
  cases e with
  | start now =>
    intro hc
    rcases hc with hc | hc <;> simp [resetSession] at hc
  | cancel now =>
    intro hc
    rcases hc with hc | hc <;> simp [resetSession] at hc
  | textMsg txt =>
    cases s with
    | none => exact trivial
    | some sess =>
      simp only [stepFn]
      split
      · next hstep =>
        simp only [handleUsernameText]
        split
        · intro hc
          exact h hc
        · split
          · intro hc
            exact h hc
          · next hlen hall =>
            intro hc
            refine ⟨stripLeadingAt (trimWs txt), rfl, ?_⟩
            intro hnil
            rw [hnil] at hlen
            simp at hlen
      · exact h
  | iHaveFollowed =>
    cases s with
    | none => exact trivial
    | some sess =>
      simp only [stepFn]
      split
      · exact h
      · next hne =>
        intro _
        cases hu : sess.username with
        | none =>
          rw [hu] at hne
          simp at hne
        | some u =>
          refine ⟨u, rfl, ?_⟩
          intro hnil
          rw [hu, hnil] at hne
          simp at hne
  | photo words width height fullText =>
    cases s with
    | none => exact trivial
    | some sess =>
      simp only [stepFn]
      split
      · next hstep =>
        cases autoAcceptCheck (validateProfileLayout words width height) fullText ownerX with
        | auto_accept => exact trivial
        | escalate =>
          intro _
          exact h (Or.inl hstep)
      · exact h
  | photoError =>
    cases s with
    | none => exact trivial
    | some sess =>
      simp only [stepFn]
      split
      · next hstep =>
        intro _
        exact h (Or.inl hstep)
      · exact h
  | adminDelete => exact trivial
  | broadcastStart now =>
    intro hc
    rcases hc with hc | hc <;> simp [resetSession] at hc
  | broadcastMsg =>
    cases s with
    | none => exact trivial
    | some sess =>
      simp only [stepFn]
      split
      · exact trivial
      · exact h
  | sweep now =>
    cases s with
    | none => exact trivial
    | some sess =>
      simp only [stepFn]
      split
      · exact trivial
      · exact h

theorem handleOk_foldl (ownerX : List Char) (evs : List Event) :
    ∀ (s : Option Session), handleOk s → handleOk (evs.foldl (stepFn ownerX) s) := by
  induction evs with
  | nil =>
    intro s hs
    exact hs
  | cons e rest ih =>
    intro s hs
    rw [List.foldl_cons]
    exact ih _ (handleOk_step ownerX s e hs)

/-- Claim C7: in every reachable session state, a session in step `screenshot`
or `done` has a non-empty stored handle — no event sequence reaches the
screenshot step without a handle stored first. -/
theorem screenshot_step_has_handle (ownerX : List Char) (evs : List Event) (sess : Session)
    (h : applyEvents ownerX evs = some sess)
    (hs : sess.step = Step.screenshot ∨ sess.step = Step.done) :
    ∃ u, sess.username = some u ∧ u ≠ [] := by
  have hall := handleOk_foldl ownerX evs none trivial
  rw [applyEvents] at h
  rw [h] at hall
  exact hall hs

/-- Witness for claim C7: the straight-line run start / handle / button press
reaches the screenshot step with the stored handle. -/
theorem screenshot_step_has_handle_witness :
    ∃ u, (Session.mk Step.screenshot (some ("jane".toList)) 0 0).username = some u ∧
      u ≠ [] :=
  screenshot_step_has_handle ("x".toList)
    [Event.start 0, Event.textMsg ("jane".toList), Event.iHaveFollowed]
    ⟨Step.screenshot, some ("jane".toList), 0, 0⟩ (by decide) (Or.inl rfl)

/-- Counterexample to claim C8 as stated: the input has surrounding
whitespace, so after stripping one leading at-sign (and no trimming, as the
claim reads) it is not a valid 1–15 character handle, yet the handler trims
first, accepts, stores the trimmed handle and advances to `follow_check`
instead of leaving the session unchanged. -/
theorem username_untrimmed_counterexample :
    ¬ (1 ≤ (stripLeadingAt (" ab ".toList)).length ∧
        (stripLeadingAt (" ab ".toList)).length ≤ 15 ∧
        (stripLeadingAt (" ab ".toList)).all isHandleChar = true) ∧
    (handleUsernameText ⟨Step.username, none, 0, 0⟩ (" ab ".toList)).1.step =
      Step.follow_check ∧
    (handleUsernameText ⟨Step.username, none, 0, 0⟩ (" ab ".toList)).1.username =
      some ("ab".toList) := by decide

/-- Amended claim C8: for a session in step `username`, the handler first
trims surrounding whitespace and then strips one leading at-sign; if the
result is 1–15 characters over the handle alphabet it is stored as the claimed
handle and the session moves to `follow_check`, otherwise the session is left
unchanged and a validation error is surfaced to the caller. -/
theorem username_step_validation (sess : Session) (txt : List Char)
    (_hstep : sess.step = Step.username) :
    (1 ≤ (stripLeadingAt (trimWs txt)).length ∧
     (stripLeadingAt (trimWs txt)).length ≤ 15 ∧
     (stripLeadingAt (trimWs txt)).all isHandleChar = true →
      handleUsernameText sess txt =
        ({ sess with
            username := some (stripLeadingAt (trimWs txt))
            step := Step.follow_check }, none)) ∧
    (¬ (1 ≤ (stripLeadingAt (trimWs txt)).length ∧
        (stripLeadingAt (trimWs txt)).length ≤ 15 ∧
        (stripLeadingAt (trimWs txt)).all isHandleChar = true) →
      (handleUsernameText sess txt).1 = sess ∧ (handleUsernameText sess txt).2 ≠ none) := by
  constructor
  · intro hv
    simp only [handleUsernameText]
    rw [if_neg (by omega)]
    rw [if_neg (by simp [hv.2.2])]
  · intro hv
    simp only [handleUsernameText]
    by_cases h1 : (stripLeadingAt (trimWs txt)).length < 1 ∨
        (stripLeadingAt (trimWs txt)).length > 15
    · rw [if_pos h1]
      exact ⟨rfl, by simp⟩
    · rw [if_neg h1]
      have h2 : ¬ (stripLeadingAt (trimWs txt)).all isHandleChar = true := by
        intro hall
        exact hv ⟨by omega, by omega, hall⟩
      rw [if_pos h2]
      exact ⟨rfl, by simp⟩

/-- Witness for the amended claim C8 at the concrete valid input abc. -/
theorem username_step_validation_witness :
    handleUsernameText ⟨Step.username, none, 0, 0⟩ ("abc".toList) =
      ({ Session.mk Step.username none 0 0 with
          username := some (stripLeadingAt (trimWs ("abc".toList)))
          step := Step.follow_check }, none) :=
  (username_step_validation ⟨Step.username, none, 0, 0⟩ ("abc".toList) rfl).1 (by decide)
